import Mathlib

/-!
Verification of the octl CLI (Go) against its natural-language specification,
via a shallow embedding of the relevant packages into Lean 4.

Conventions used in the embedding:
* Go strings are Lean `String` (or `List Char` where character-level
  processing is involved).
* Go `*T` (nullable pointer) fields are `Option T`.
* Filesystem and external-library effects (azidentity, Microsoft Graph,
  `os.UserHomeDir`) are modelled by an explicit environment of oracle
  results threaded through the functions that perform them.
* `int32` fields are embedded as `Int`; the programs perform no arithmetic
  on them beyond comparisons, so overflow is not involved.
-/

namespace Output

/-! ## internal/output/formatter.go -/

/-- `Format` is a string type in the source (`type Format string`). -/
abbrev Format := String

def FormatTable : Format := "table"
def FormatJSON : Format := "json"
def FormatPlain : Format := "plain"

/-- Embeds `Formatter` (the `writer` field is the output sink, modelled
separately as the string produced by printing). -/
structure Formatter where
  format : Format
deriving Repr, DecidableEq

/-- Embeds `output.New`: unknown format names fall back to `table`. -/
def New (format : String) : Formatter :=
  let f : Format := format
  if f ≠ FormatTable ∧ f ≠ FormatJSON ∧ f ≠ FormatPlain then
    { format := FormatTable }
  else
    { format := f }

/-- The branch `Formatter.Print` dispatches to. -/
inductive PrintBranch where
  | json
  | plain
  | table
deriving Repr, DecidableEq

/-- Embeds the `switch f.format` dispatch of `Formatter.Print`. -/
def Formatter.printBranch (f : Formatter) : PrintBranch :=
  if f.format = FormatJSON then .json
  else if f.format = FormatPlain then .plain
  else .table

/-- The dynamic shapes `printPlain` handles with dedicated cases
(`[][]string`, `[]string`, `string`); other values take the JSON
fallback branch, which is outside the structured cases modelled here. -/
inductive PlainData where
  | rows (v : List (List String))
  | row (v : List String)
  | str (v : String)

/-- Embeds `Formatter.printPlain`: the text written to the writer.
`fmt.Fprintln(w, s)` writes `s` followed by a newline;
`strings.Join(row, "\t")` is `String.intercalate "\t"`.  The `[][]string`
case writes row by row in a loop, modelled by recursion on the list. -/
def printPlainRows : List (List String) → String
  | [] => ""
  | row :: rest => String.intercalate "\t" row ++ "\n" ++ printPlainRows rest

def printPlain : PlainData → String
  | .rows v => printPlainRows v
  | .row v => String.intercalate "\t" v ++ "\n"
  | .str v => v ++ "\n"

end Output

namespace Calendar

/-! ## internal/calendar (RespondToEvent) -/

/-- A request issued against the Graph client by `RespondToEvent`
(`Accept`, `Decline` or `TentativelyAccept` POST with a body holding the
comment and sendResponse flag). -/
inductive EventResponseRequest where
  | accept (eventID comment : String) (sendResponse : Bool)
  | decline (eventID comment : String) (sendResponse : Bool)
  | tentativelyAccept (eventID comment : String) (sendResponse : Bool)
deriving Repr, DecidableEq

/-- Result of a remote POST: `none` is success, `some e` the error text. -/
abbrev PostOracle := EventResponseRequest → Option String

/-- Embeds `RespondToEvent`.  Returns the list of requests issued against
the client (in order) together with the function's error result
(`none` = nil error). -/
def RespondToEvent (post : PostOracle) (eventID response comment : String) :
    List EventResponseRequest × Option String :=
  let sendResponse := true
  if response = "accept" then
    let req := EventResponseRequest.accept eventID comment sendResponse
    match post req with
    | some e => ([req], some ("failed to accept event: " ++ e))
    | none => ([req], none)
  else if response = "decline" then
    let req := EventResponseRequest.decline eventID comment sendResponse
    match post req with
    | some e => ([req], some ("failed to decline event: " ++ e))
    | none => ([req], none)
  else if response = "tentative" then
    let req := EventResponseRequest.tentativelyAccept eventID comment sendResponse
    match post req with
    | some e => ([req], some ("failed to tentatively accept event: " ++ e))
    | none => ([req], none)
  else
    ([], some ("invalid response: " ++ response ++ " (use accept, decline, or tentative)"))

end Calendar

namespace Auth

/-! ## internal/auth (Manager) and its environment

The azidentity library and the OS are external to the repository; their
effects are modelled by an `Env` of oracle outcomes.  The auth-record file
`auth_record.json` under the config directory is the only filesystem state
the package touches; its content is modelled as the stored
`AuthenticationRecord` value (the JSON marshalling of the opaque azidentity
record is the library's own and round-trips). -/

/-- The non-secret `azidentity.AuthenticationRecord` (only the fields the
program reads are named; the record is otherwise opaque). -/
structure AuthRecord where
  username : String
  homeAccountID : String
deriving Repr, DecidableEq

/-- Options passed to `azidentity.NewDeviceCodeCredential`. -/
structure CredentialOptions where
  clientID : String
  tenantID : String
  authenticationRecord : Option AuthRecord
  disableAutomaticAuthentication : Bool
deriving Repr, DecidableEq

/-- An `azidentity.DeviceCodeCredential`, determined by the options it was
constructed with. -/
structure Credential where
  opts : CredentialOptions
deriving Repr, DecidableEq

/-- Filesystem state relevant to the auth package: the content of
`auth_record.json` under the config directory (`none` = file absent). -/
structure FS where
  authFile : Option AuthRecord
deriving Repr, DecidableEq

/-- Oracle outcomes for the external effects:
`homeDirOk` — `os.UserHomeDir` (hence `config.ConfigDir`/`authRecordPath`);
`newCredOk` — `azidentity.NewDeviceCodeCredential`;
`authenticateResult` — `cred.Authenticate` (`some r` = success with record `r`);
`mkdirOk`/`writeOk`/`readOk`/`removeOk` — the corresponding `os` calls on an
existing file (an absent file gives `os.IsNotExist` deterministically);
`getTokenOk` — silent `cred.GetToken`. -/
structure Env where
  homeDirOk : Bool
  newCredOk : Bool
  authenticateResult : Option AuthRecord
  mkdirOk : Bool
  writeOk : Bool
  readOk : Bool
  removeOk : Bool
  getTokenOk : Bool
deriving Repr, DecidableEq

/-- Embeds `auth.Manager`. -/
structure Manager where
  clientID : String
  credential : Option Credential
  record : Option AuthRecord
deriving Repr, DecidableEq

/-- Embeds `auth.NewManager`. -/
def NewManager (clientID : String) : Manager :=
  { clientID := clientID, credential := none, record := none }

/-- Embeds `Manager.saveAuthRecord`; returns the new filesystem state and
the error result (`none` = nil error). -/
def Manager.saveAuthRecord (env : Env) (m : Manager) (fs : FS) :
    FS × Option String :=
  match m.record with
  | none => (fs, some "no auth record to save")
  | some rec =>
    if !env.homeDirOk then (fs, some "failed to get home directory")
    else if !env.mkdirOk then (fs, some "failed to create config directory")
    else if !env.writeOk then (fs, some "failed to write auth record")
    else ({ authFile := some rec }, none)

/-- Embeds `Manager.Login`: create a device-code credential, authenticate
interactively, store the returned record, and persist it.  The manager's
field mutations happen in source order, so a later failure leaves earlier
mutations in place. -/
def Manager.Login (env : Env) (m : Manager) (fs : FS) :
    Manager × FS × Option String :=
  if !env.newCredOk then (m, fs, some "failed to create credential")
  else
    let cred : Credential :=
      { opts := { clientID := m.clientID, tenantID := "common",
                  authenticationRecord := none,
                  disableAutomaticAuthentication := false } }
    let m := { m with credential := some cred }
    match env.authenticateResult with
    | none => (m, fs, some "authentication failed")
    | some rec =>
      let m := { m with record := some rec }
      match m.saveAuthRecord env fs with
      | (fs', some e) => (m, fs', some ("failed to save auth record: " ++ e))
      | (fs', none) => (m, fs', none)

/-- Embeds `Manager.loadAuthRecord`. -/
def Manager.loadAuthRecord (env : Env) (fs : FS) :
    Option AuthRecord × Option String :=
  if !env.homeDirOk then (none, some "failed to get home directory")
  else
    match fs.authFile with
    | none => (none, some "not logged in - run 'octl auth login' first")
    | some rec =>
      if !env.readOk then (none, some "failed to read auth record")
      else (some rec, none)

/-- Embeds `Manager.LoadCredential`: load the stored record and rebuild a
credential from it with automatic interactive authentication disabled. -/
def Manager.LoadCredential (env : Env) (m : Manager) (fs : FS) :
    Manager × Option String :=
  match Manager.loadAuthRecord env fs with
  | (_, some e) => (m, some e)
  | (some rec, none) =>
    if !env.newCredOk then (m, some "failed to create credential")
    else
      let cred : Credential :=
        { opts := { clientID := m.clientID, tenantID := "common",
                    authenticationRecord := some rec,
                    disableAutomaticAuthentication := true } }
      ({ m with credential := some cred, record := some rec }, none)
  | (none, none) => (m, some "failed to read auth record")

/-- Embeds `Manager.IsLoggedIn`: `LoadCredential` must succeed and a silent
token acquisition must succeed. -/
def Manager.IsLoggedIn (env : Env) (m : Manager) (fs : FS) : Bool :=
  match m.LoadCredential env fs with
  | (_, some _) => false
  | (_, none) => env.getTokenOk

/-- Embeds `Manager.Logout`: remove the auth-record file (ignoring an
`IsNotExist` error) and clear the in-memory credential and record. -/
def Manager.Logout (env : Env) (m : Manager) (fs : FS) :
    Manager × FS × Option String :=
  if !env.homeDirOk then (m, fs, some "failed to get home directory")
  else
    match fs.authFile with
    | none =>
      -- os.Remove returns an IsNotExist error, which is ignored
      ({ m with credential := none, record := none }, fs, none)
    | some _ =>
      if !env.removeOk then (m, fs, some "failed to remove auth record")
      else ({ m with credential := none, record := none },
            { authFile := none }, none)

end Auth

namespace Mail

/-! ## internal/mail (messages.go, folders.go) -/

/-- `time.Time`; the zero value is the zero time.  The embedding only needs
equality with the zero value, so the wall-clock representation is a single
abstract field. -/
structure GoTime where
  ticks : Int
deriving Repr, DecidableEq

def GoTime.zero : GoTime := { ticks := 0 }

/-- `models.EmailAddressable` (fields read: name, address). -/
structure GraphEmailAddress where
  name : Option String
  address : Option String
deriving Repr, DecidableEq

/-- `models.Recipientable` (field read: emailAddress). -/
structure GraphRecipient where
  emailAddress : Option GraphEmailAddress
deriving Repr, DecidableEq

/-- `models.Messageable`, restricted to the fields `convertMessage` reads.
Each getter returns a nullable pointer, hence `Option`. -/
structure GraphMessage where
  id : Option String
  subject : Option String
  isRead : Option Bool
  hasAttachments : Option Bool
  bodyPreview : Option String
  «from» : Option GraphRecipient
  toRecipients : Option (List GraphRecipient)
  receivedDateTime : Option GoTime
deriving Repr, DecidableEq

/-- Embeds `mail.Message`. -/
structure Message where
  ID : String
  Subject : String
  From : String
  To : List String
  ReceivedAt : GoTime
  IsRead : Bool
  HasAttachments : Bool
  BodyPreview : String
deriving Repr, DecidableEq

/-- Embeds `mail.safeString`. -/
def safeString : Option String → String
  | none => ""
  | some s => s

/-- Embeds `mail.safeBool`. -/
def safeBool : Option Bool → Bool
  | none => false
  | some b => b

/-- Embeds `mail.convertMessage`.  Note `GetToRecipients()` returning nil
skips the loop, and a nil `from.GetEmailAddress()` leaves `From` at its
zero value `""`. -/
def convertMessage (msg : GraphMessage) : Message :=
  let m : Message :=
    { ID := safeString msg.id
      Subject := safeString msg.subject
      IsRead := safeBool msg.isRead
      HasAttachments := safeBool msg.hasAttachments
      BodyPreview := safeString msg.bodyPreview
      From := ""
      To := []
      ReceivedAt := GoTime.zero }
  let m :=
    match msg.«from» with
    | none => m
    | some f =>
      match f.emailAddress with
      | none => m
      | some addr =>
        let name := safeString addr.name
        let email := safeString addr.address
        if name ≠ "" ∧ name ≠ email then
          { m with From := name ++ " <" ++ email ++ ">" }
        else
          { m with From := email }
  let m :=
    match msg.toRecipients with
    | none => m
    | some rs =>
      { m with To := rs.foldl (fun acc r =>
          match r.emailAddress with
          | none => acc
          | some addr => acc ++ [safeString addr.address]) [] }
  match msg.receivedDateTime with
  | none => m
  | some t => { m with ReceivedAt := t }

/-- `models.MailFolderable`, restricted to the fields `convertFolder`
reads. -/
structure GraphMailFolder where
  id : Option String
  displayName : Option String
  totalItemCount : Option Int
  unreadItemCount : Option Int
  parentFolderId : Option String
deriving Repr, DecidableEq

/-- Embeds `mail.Folder`. -/
structure Folder where
  ID : String
  DisplayName : String
  TotalItemCount : Int
  UnreadItemCount : Int
  ParentFolderID : String
deriving Repr, DecidableEq

/-- Embeds `mail.convertFolder`. -/
def convertFolder (f : GraphMailFolder) : Folder :=
  let folder : Folder :=
    { ID := safeString f.id
      DisplayName := safeString f.displayName
      TotalItemCount := 0
      UnreadItemCount := 0
      ParentFolderID := "" }
  let folder :=
    match f.totalItemCount with
    | none => folder
    | some c => { folder with TotalItemCount := c }
  let folder :=
    match f.unreadItemCount with
    | none => folder
    | some c => { folder with UnreadItemCount := c }
  match f.parentFolderId with
  | none => folder
  | some p => { folder with ParentFolderID := p }

/-! ### ListMessages (request construction) -/

/-- Embeds `mail.ListOptions`. -/
structure ListOptions where
  Top : Int
  Skip : Int
  Filter : String
  OrderBy : String
  UnreadOnly : Bool
  FolderID : String
deriving Repr, DecidableEq

/-- The query parameters `ListMessages` builds for the mailbox-wide
request (`Select` is a fixed list and omitted). -/
structure QueryParameters where
  top : Int
  orderby : List String
  filter : Option String
  skip : Option Int
deriving Repr, DecidableEq

/-- The remote request `ListMessages` issues: either a folder-scoped GET
with a nil request configuration, or a mailbox-wide GET with the built
query parameters. -/
inductive ListRequest where
  | folder (folderID : String) (config : Option QueryParameters)
  | mailbox (config : QueryParameters)
deriving Repr, DecidableEq

/-- Embeds the request-building part of `mail.ListMessages` (everything up
to the remote call; the conversion of the response reuses
`convertMessage`). -/
def listMessagesRequest (opts : ListOptions) : ListRequest :=
  let top := if opts.Top = 0 then 25 else opts.Top
  let orderBy := if opts.OrderBy = "" then "receivedDateTime desc" else opts.OrderBy
  let filter :=
    if opts.UnreadOnly then
      if opts.Filter ≠ "" then "(" ++ opts.Filter ++ ") and isRead eq false"
      else "isRead eq false"
    else opts.Filter
  let config : QueryParameters :=
    { top := top
      orderby := [orderBy]
      filter := if filter ≠ "" then some filter else none
      skip := if opts.Skip > 0 then some opts.Skip else none }
  if opts.FolderID ≠ "" then
    .folder opts.FolderID none
  else
    .mailbox config

end Mail

namespace Calendar

/-! ### convertEvent (part of the calendar package) -/

open Mail (GoTime GraphEmailAddress GraphRecipient safeString safeBool)

/-- `models.DateTimeTimeZoneable` (fields read: dateTime, timeZone). -/
structure GraphDateTimeTimeZone where
  dateTime : Option String
  timeZone : Option String
deriving Repr, DecidableEq

/-- `models.Locationable` (field read: displayName). -/
structure GraphLocation where
  displayName : Option String
deriving Repr, DecidableEq

/-- `models.Attendeeable` (field read: emailAddress). -/
structure GraphAttendee where
  emailAddress : Option GraphEmailAddress
deriving Repr, DecidableEq

/-- `models.ResponseStatusable`: `GetResponse` yields a nullable enum whose
`String()` form is what the program stores, embedded as the string. -/
structure GraphResponseStatus where
  response : Option String
deriving Repr, DecidableEq

/-- `models.Eventable`, restricted to the fields `convertEvent` reads. -/
structure GraphEvent where
  id : Option String
  subject : Option String
  webLink : Option String
  isAllDay : Option Bool
  isOnlineMeeting : Option Bool
  onlineMeetingUrl : Option String
  start : Option GraphDateTimeTimeZone
  «end» : Option GraphDateTimeTimeZone
  location : Option GraphLocation
  organizer : Option GraphRecipient
  attendees : Option (List GraphAttendee)
  responseStatus : Option GraphResponseStatus
deriving Repr, DecidableEq

/-- Embeds `calendar.Event` (the fields `convertEvent` writes). -/
structure Event where
  ID : String
  Subject : String
  Start : GoTime
  End : GoTime
  Location : String
  IsAllDay : Bool
  Organizer : String
  Attendees : List String
  WebLink : String
  ResponseStatus : String
  IsOnline : Bool
  OnlineMeetingURL : String
deriving Repr, DecidableEq

/-- Embeds `calendar.convertEvent`.  The helper `parseDateTime` (Go time-format
parsing over `time.LoadLocation`) is passed as a parameter: the claims
about `convertEvent` do not depend on its value, only on when it is
called. -/
def convertEvent (parseDateTime : String → String → GoTime)
    (ev : GraphEvent) : Event :=
  let event : Event :=
    { ID := safeString ev.id
      Subject := safeString ev.subject
      WebLink := safeString ev.webLink
      IsAllDay := safeBool ev.isAllDay
      IsOnline := safeBool ev.isOnlineMeeting
      Start := GoTime.zero
      End := GoTime.zero
      Location := ""
      Organizer := ""
      Attendees := []
      ResponseStatus := ""
      OnlineMeetingURL := "" }
  let event :=
    match ev.onlineMeetingUrl with
    | none => event
    | some url => { event with OnlineMeetingURL := url }
  let event :=
    match ev.start with
    | none => event
    | some start =>
      match start.dateTime with
      | none => event
      | some dt =>
        let tz := match start.timeZone with
                  | none => "UTC"
                  | some z => z
        { event with Start := parseDateTime dt tz }
  let event :=
    match ev.«end» with
    | none => event
    | some e =>
      match e.dateTime with
      | none => event
      | some dt =>
        let tz := match e.timeZone with
                  | none => "UTC"
                  | some z => z
        { event with End := parseDateTime dt tz }
  let event :=
    match ev.location with
    | none => event
    | some loc => { event with Location := safeString loc.displayName }
  let event :=
    match ev.organizer with
    | none => event
    | some org =>
      match org.emailAddress with
      | none => event
      | some email => { event with Organizer := safeString email.address }
  let event :=
    match ev.attendees with
    | none => event
    | some as =>
      { event with Attendees := as.foldl (fun acc a =>
          match a.emailAddress with
          | none => acc
          | some email => acc ++ [safeString email.address]) [] }
  match ev.responseStatus with
  | none => event
  | some resp =>
    match resp.response with
    | none => event
    | some r => { event with ResponseStatus := r }

end Calendar

namespace ConfigPkg

/-! ## internal/config (config.go)

`Config` has a single string field tagged `json:"client_id,omitempty"`.
`Save` writes `json.MarshalIndent(cfg, "", "  ")`; `Load` reads the file
and `json.Unmarshal`s it.  The stdlib JSON codec is modelled concretely on
the fragment these calls exercise: objects whose values are strings, with
Go's default (HTML-escaping) string encoder and a decoder handling the
standard escapes and non-surrogate `\uXXXX` (the encoder never emits
surrogate pairs, and exact key matching suffices for keys the encoder
wrote). -/

/-- Embeds `config.Config`. -/
structure Config where
  ClientID : String
deriving Repr, DecidableEq

/-- Lowercase hex digit, as Go's JSON encoder emits. -/
def hexDigit (n : Nat) : Char :=
  if n < 10 then Char.ofNat (48 + n) else Char.ofNat (97 + n - 10)

/-- How `encoding/json` (with its default HTML escaping) encodes one
character inside a JSON string. -/
def escapeChar (c : Char) : List Char :=
  if c = '"' then ['\\', '"']
  else if c = '\\' then ['\\', '\\']
  else if c = '\n' then ['\\', 'n']
  else if c = '\r' then ['\\', 'r']
  else if c = '\t' then ['\\', 't']
  else if c.toNat < 0x20 then
    ['\\', 'u', '0', '0', hexDigit (c.toNat / 16), hexDigit (c.toNat % 16)]
  else if c = '<' then ['\\', 'u', '0', '0', '3', 'c']
  else if c = '>' then ['\\', 'u', '0', '0', '3', 'e']
  else if c = '&' then ['\\', 'u', '0', '0', '2', '6']
  else if c.toNat = 0x2028 then ['\\', 'u', '2', '0', '2', '8']
  else if c.toNat = 0x2029 then ['\\', 'u', '2', '0', '2', '9']
  else [c]

def escapeList : List Char → List Char
  | [] => []
  | c :: cs => escapeChar c ++ escapeList cs

/-- `json.MarshalIndent(cfg, "", "  ")` on a `Config`: `{}` when the
`omitempty` field is empty, else the two-space-indented one-field object. -/
def marshalConfig (cfg : Config) : List Char :=
  if cfg.ClientID = "" then "\x7b\x7d".data
  else "\x7b\n  \"client_id\": \"".data ++ escapeList cfg.ClientID.data ++ "\"\n\x7d".data

/-- JSON whitespace. -/
def isJsonWs (c : Char) : Bool :=
  c = ' ' || c = '\t' || c = '\n' || c = '\r'

def skipWs (l : List Char) : List Char := l.dropWhile isJsonWs

/-- Value of a hex digit character. -/
def hexVal (c : Char) : Option Nat :=
  if 48 ≤ c.toNat ∧ c.toNat ≤ 57 then some (c.toNat - 48)
  else if 97 ≤ c.toNat ∧ c.toNat ≤ 102 then some (c.toNat - 97 + 10)
  else if 65 ≤ c.toNat ∧ c.toNat ≤ 70 then some (c.toNat - 65 + 10)
  else none

/-- Decode a JSON string body (after the opening quote) up to the closing
quote, returning the decoded characters and the rest of the input. -/
def parseStringBody : List Char → Option (List Char × List Char)
  | [] => none
  | c :: rest =>
    if c = '"' then some ([], rest)
    else if c = '\\' then
      match rest with
      | [] => none
      | e :: rest2 =>
        if e = '"' ∨ e = '\\' ∨ e = '/' then
          (parseStringBody rest2).map (fun p => (e :: p.1, p.2))
        else if e = 'n' then
          (parseStringBody rest2).map (fun p => ('\n' :: p.1, p.2))
        else if e = 'r' then
          (parseStringBody rest2).map (fun p => ('\r' :: p.1, p.2))
        else if e = 't' then
          (parseStringBody rest2).map (fun p => ('\t' :: p.1, p.2))
        else if e = 'b' then
          (parseStringBody rest2).map (fun p => (Char.ofNat 8 :: p.1, p.2))
        else if e = 'f' then
          (parseStringBody rest2).map (fun p => (Char.ofNat 12 :: p.1, p.2))
        else if e = 'u' then
          match rest2 with
          | h1 :: h2 :: h3 :: h4 :: rest3 =>
            match hexVal h1, hexVal h2, hexVal h3, hexVal h4 with
            | some a, some b, some c3, some d =>
              let v := ((a * 16 + b) * 16 + c3) * 16 + d
              if v < 0xD800 ∨ 0xDFFF < v then
                (parseStringBody rest3).map (fun p => (Char.ofNat v :: p.1, p.2))
              else none
            | _, _, _, _ => none
          | _ => none
        else none
    else
      (parseStringBody rest).map (fun p => (c :: p.1, p.2))

/-- Parse one `"key": "value"` member starting at the key's opening
quote. -/
def parseMember (l : List Char) : Option ((String × String) × List Char) :=
  match l with
  | '"' :: rest =>
    match parseStringBody rest with
    | none => none
    | some (key, rest1) =>
      match skipWs rest1 with
      | ':' :: rest2 =>
        match skipWs rest2 with
        | '"' :: rest3 =>
          match parseStringBody rest3 with
          | none => none
          | some (val, rest4) => some ((key.asString, val.asString), rest4)
        | _ => none
      | _ => none
  | _ => none

/-- Parse a nonempty comma-separated member list up to and including the
closing brace. -/
def parseMembers : Nat → List Char → Option (List (String × String) × List Char)
  | 0, _ => none
  | fuel + 1, l =>
    match parseMember l with
    | none => none
    | some (kv, rest) =>
      match skipWs rest with
      | ',' :: rest2 =>
        match parseMembers fuel (skipWs rest2) with
        | some (kvs, rest3) => some (kv :: kvs, rest3)
        | none => none
      | '}' :: rest2 => some ([kv], rest2)
      | _ => none

/-- `json.Unmarshal` into a `Config`, on the string-valued-object
fragment: later duplicate keys win, unknown keys are ignored, trailing
input other than whitespace is an error. -/
def unmarshalConfig (s : String) : Option Config :=
  match skipWs s.data with
  | '{' :: rest =>
    match skipWs rest with
    | '}' :: rest2 => if skipWs rest2 = [] then some { ClientID := "" } else none
    | l2 =>
      match parseMembers (s.length + 1) l2 with
      | none => none
      | some (kvs, rest3) =>
        if skipWs rest3 = [] then
          let cid := kvs.foldl
            (fun acc kv => if kv.1 = "client_id" then kv.2 else acc) ""
          some { ClientID := cid }
        else none
  | _ => none

/-- Filesystem state relevant to the config package: the content of
`config.json` under the config directory (`none` = file absent). -/
structure FS where
  configFile : Option String
deriving Repr, DecidableEq

/-- Oracle outcomes for the OS calls `Load`/`Save` perform. -/
structure Env where
  homeDirOk : Bool
  mkdirOk : Bool
  writeOk : Bool
  readOk : Bool
deriving Repr, DecidableEq

/-- Embeds `config.Load`: an absent file yields the empty default config
with nil error. -/
def Load (env : Env) (fs : FS) : Option Config × Option String :=
  if !env.homeDirOk then (none, some "failed to get home directory")
  else
    match fs.configFile with
    | none => (some { ClientID := "" }, none)
    | some data =>
      if !env.readOk then (none, some "failed to read config")
      else
        match unmarshalConfig data with
        | none => (none, some "failed to parse config")
        | some cfg => (some cfg, none)

/-- Embeds `config.Save`. -/
def Save (env : Env) (cfg : Config) (fs : FS) : FS × Option String :=
  if !env.homeDirOk then (fs, some "failed to get home directory")
  else if !env.mkdirOk then (fs, some "failed to create config directory")
  else if !env.writeOk then (fs, some "failed to write config")
  else ({ configFile := some (marshalConfig cfg).asString }, none)

end ConfigPkg

namespace Mail

/-! ### StripHTML (messages.go)

Embedded over `List Char`.  `strings.ReplaceAll` is `replaceAllL`
(left-to-right, non-overlapping; all patterns used are nonempty),
`strings.Split(s, "\n")` is `splitNL`, `strings.TrimSpace` is
`trimSpaceL`, and `strings.Join(lines, "\n")` is `joinNL`. -/

/-- Go `unicode.IsSpace`: the Unicode White_Space property. -/
def goIsSpace (c : Char) : Bool :=
  let n := c.toNat
  decide ((9 ≤ n ∧ n ≤ 13) ∨ n = 32 ∨ n = 0x85 ∨ n = 0xA0 ∨ n = 0x1680 ∨
    (0x2000 ≤ n ∧ n ≤ 0x200A) ∨ n = 0x2028 ∨ n = 0x2029 ∨ n = 0x202F ∨
    n = 0x205F ∨ n = 0x3000)

/-- Does `pat` occur at the head of `l`? -/
def leadsWith : List Char → List Char → Bool
  | [], _ => true
  | _ :: _, [] => false
  | p :: ps, c :: cs => p = c && leadsWith ps cs

/-- `strings.ReplaceAll(s, pat, rep)` for nonempty `pat`: scan left to
right, replacing non-overlapping occurrences. -/
def replaceAllL (pat rep : List Char) (s : List Char) : List Char :=
  match s with
  | [] => []
  | c :: rest =>
    if leadsWith pat (c :: rest) ∧ 0 < pat.length then
      rep ++ replaceAllL pat rep (List.drop (pat.length - 1) rest)
    else
      c :: replaceAllL pat rep rest
termination_by s.length
decreasing_by
  · simp only [List.length_drop, List.length_cons]
    omega
  · simp only [List.length_cons]
    omega

/-- The tag-removal scan of `StripHTML`: `'<'` enters tag mode, `'>'`
leaves it, characters outside tag mode are kept. -/
def removeTags : Bool → List Char → List Char
  | _, [] => []
  | _, '<' :: r => removeTags true r
  | _, '>' :: r => removeTags false r
  | true, _ :: r => removeTags true r
  | false, c :: r => c :: removeTags false r

/-- `strings.Split(s, "\n")` (always returns at least one piece; the
current piece is extended at the head of the recursive result). -/
def splitNL : List Char → List (List Char)
  | [] => [[]]
  | c :: r =>
    if c = '\n' then [] :: splitNL r
    else (c :: (splitNL r).headD []) :: (splitNL r).tail

/-- `strings.Join(pieces, "\n")`. -/
def joinNL : List (List Char) → List Char
  | [] => []
  | [l] => l
  | l :: ls => l ++ '\n' :: joinNL ls

/-- `strings.TrimSpace`. -/
def trimSpaceL (l : List Char) : List Char :=
  ((l.dropWhile goIsSpace).reverse.dropWhile goIsSpace).reverse

/-- Embeds `mail.StripHTML` over `List Char`. -/
def stripHTMLCore (l : List Char) : List Char :=
  let s := replaceAllL "<br>".data "\n".data l
  let s := replaceAllL "<br/>".data "\n".data s
  let s := replaceAllL "<br />".data "\n".data s
  let s := replaceAllL "</p>".data "\n\n".data s
  let s := replaceAllL "</div>".data "\n".data s
  let s := removeTags false s
  let s := replaceAllL "&nbsp;".data " ".data s
  let s := replaceAllL "&amp;".data "&".data s
  let s := replaceAllL "&lt;".data "<".data s
  let s := replaceAllL "&gt;".data ">".data s
  let s := replaceAllL "&quot;".data "\"".data s
  let s := replaceAllL "&#39;".data "'".data s
  let lines := splitNL s
  let cleaned := (lines.map trimSpaceL).filter (fun piece => piece ≠ [])
  joinNL cleaned

/-- Embeds `mail.StripHTML`. -/
def StripHTML (s : String) : String := (stripHTMLCore s.data).asString

end Mail

/-! # Theorems -/

/-- C3: printing in the `plain` format writes one line per row for a 2D
string array — the output is the concatenation, row by row, of the row's
cells joined by single tabs and terminated by a newline; a single string
slice yields one such tab-joined newline-terminated line, and a bare
string yields the string followed by a newline. -/
theorem printPlain_lines (rows : List (List String)) (row : List String) (s : String) :
    Output.printPlain (.rows rows) =
      (rows.map (fun r => String.intercalate "\t" r ++ "\n")).foldr (· ++ ·) "" ∧
    Output.printPlain (.row row) = String.intercalate "\t" row ++ "\n" ∧
    Output.printPlain (.str s) = s ++ "\n" := by
  refine ⟨?_, rfl, rfl⟩
  induction rows with
  | nil => rfl
  | cons r rest ih =>
    simp only [Output.printPlain, Output.printPlainRows, List.map_cons, List.foldr_cons] at *
    rw [ih, String.append_assoc]

/-- C9: `output.New` falls back to the `table` format on every format
string other than `table`, `json` and `plain`, so `Print` on such a
formatter takes the table branch. -/
theorem new_unknown_format_is_table (s : String)
    (h : s ≠ "table" ∧ s ≠ "json" ∧ s ≠ "plain") :
    (Output.New s).format = "table" ∧
    (Output.New s).printBranch = Output.PrintBranch.table := by
  obtain ⟨h1, h2, h3⟩ := h
  constructor
  · simp [Output.New, Output.FormatTable, Output.FormatJSON, Output.FormatPlain, h1, h2, h3]
  · simp [Output.New, Output.Formatter.printBranch, Output.FormatTable,
      Output.FormatJSON, Output.FormatPlain, h1, h2, h3]

/-- Witness for `new_unknown_format_is_table` at the format string `""`. -/
theorem new_unknown_format_is_table_witness :
    (Output.New "").format = "table" ∧
    (Output.New "").printBranch = Output.PrintBranch.table :=
  new_unknown_format_is_table "" (by decide)

/-- C4: `RespondToEvent` rejects every response string other than
`accept`, `decline`, `tentative` with an "invalid response" error and
issues no request; each valid value issues exactly the one corresponding
request carrying the given comment with sendResponse true. -/
theorem respondToEvent_cases (post : Calendar.PostOracle)
    (eventID response comment : String) :
    (response ≠ "accept" → response ≠ "decline" → response ≠ "tentative" →
      Calendar.RespondToEvent post eventID response comment =
        ([], some ("invalid response: " ++ response ++
          " (use accept, decline, or tentative)"))) ∧
    (Calendar.RespondToEvent post eventID "accept" comment).1 =
      [.accept eventID comment true] ∧
    (Calendar.RespondToEvent post eventID "decline" comment).1 =
      [.decline eventID comment true] ∧
    (Calendar.RespondToEvent post eventID "tentative" comment).1 =
      [.tentativelyAccept eventID comment true] := by
  refine ⟨fun h1 h2 h3 => ?_, ?_, ?_, ?_⟩
  · simp [Calendar.RespondToEvent, h1, h2, h3]
  · simp only [Calendar.RespondToEvent, if_pos rfl]
    cases post (.accept eventID comment true) <;> rfl
  · have : ("decline" : String) ≠ "accept" := by decide
    simp only [Calendar.RespondToEvent, if_neg this, if_pos rfl]
    cases post (.decline eventID comment true) <;> rfl
  · have ha : ("tentative" : String) ≠ "accept" := by decide
    have hd : ("tentative" : String) ≠ "decline" := by decide
    simp only [Calendar.RespondToEvent, if_neg ha, if_neg hd, if_pos rfl]
    cases post (.tentativelyAccept eventID comment true) <;> rfl

/-- Witness for `respondToEvent_cases` at the response string `"maybe"`
with an always-succeeding client. -/
theorem respondToEvent_cases_witness :
    Calendar.RespondToEvent (fun _ => none) "ev" "maybe" "c" =
      ([], some ("invalid response: " ++ "maybe" ++
        " (use accept, decline, or tentative)")) ∧
    (Calendar.RespondToEvent (fun _ => none) "ev" "accept" "c").1 =
      [.accept "ev" "c" true] :=
  ⟨(respondToEvent_cases (fun _ => none) "ev" "maybe" "c").1
      (by decide) (by decide) (by decide),
    (respondToEvent_cases (fun _ => none) "ev" "accept" "c").2.1⟩

/-- C1: after a successful `Manager.Login` the record is persisted to the
auth-record file, and `Manager.LoadCredential` on a fresh manager succeeds
(given the external credential constructor and the file read succeed,
which `readOk` supplies and a successful Login implies for the
constructor), reconstructing a credential from exactly the saved record
with automatic interactive authentication disabled. -/
theorem login_persists_and_reloads (env : Auth.Env) (m m' : Auth.Manager)
    (fs fs' : Auth.FS)
    (hlogin : Auth.Manager.Login env m fs = (m', fs', none))
    (hread : env.readOk = true) :
    ∃ r : Auth.AuthRecord, m'.record = some r ∧ fs'.authFile = some r ∧
      Auth.Manager.LoadCredential env (Auth.NewManager m.clientID) fs' =
        ({ clientID := m.clientID,
           credential := some { opts :=
             { clientID := m.clientID, tenantID := "common",
               authenticationRecord := some r,
               disableAutomaticAuthentication := true } },
           record := some r }, none) := by
  cases hnc : env.newCredOk with
  | false => simp [Auth.Manager.Login, hnc] at hlogin
  | true =>
    cases har : env.authenticateResult with
    | none => simp [Auth.Manager.Login, hnc, har] at hlogin
    | some r =>
      cases hh : env.homeDirOk with
      | false =>
        simp [Auth.Manager.Login, Auth.Manager.saveAuthRecord, hnc, har, hh] at hlogin
      | true =>
        cases hmk : env.mkdirOk with
        | false =>
          simp [Auth.Manager.Login, Auth.Manager.saveAuthRecord, hnc, har, hh, hmk] at hlogin
        | true =>
          cases hw : env.writeOk with
          | false =>
            simp [Auth.Manager.Login, Auth.Manager.saveAuthRecord,
              hnc, har, hh, hmk, hw] at hlogin
          | true =>
            simp only [Auth.Manager.Login, Auth.Manager.saveAuthRecord,
              hnc, har, hh, hmk, hw, Bool.not_true, Bool.false_eq_true,
              if_false, Prod.mk.injEq] at hlogin
            obtain ⟨hm', hfs', -⟩ := hlogin
            refine ⟨r, ?_, ?_, ?_⟩
            · rw [← hm']
            · rw [← hfs']
            · rw [← hfs']
              simp [Auth.Manager.LoadCredential, Auth.Manager.loadAuthRecord,
                Auth.NewManager, hh, hread, hnc]

/-- Witness for `login_persists_and_reloads`: a fully successful
environment, a fresh manager, and an initially empty filesystem. -/
theorem login_persists_and_reloads_witness :
    ∃ r : Auth.AuthRecord,
      (some { username := "u", homeAccountID := "h" } : Option Auth.AuthRecord)
        = some r ∧
      ({ authFile := some { username := "u", homeAccountID := "h" } } : Auth.FS).authFile
        = some r ∧
      Auth.Manager.LoadCredential
        { homeDirOk := true, newCredOk := true,
          authenticateResult := some { username := "u", homeAccountID := "h" },
          mkdirOk := true, writeOk := true, readOk := true,
          removeOk := true, getTokenOk := true }
        (Auth.NewManager "cid") { authFile := some { username := "u", homeAccountID := "h" } } =
        ({ clientID := "cid",
           credential := some { opts :=
             { clientID := "cid", tenantID := "common",
               authenticationRecord := some { username := "u", homeAccountID := "h" },
               disableAutomaticAuthentication := true } },
           record := some { username := "u", homeAccountID := "h" } }, none) := by
  have h := login_persists_and_reloads
    { homeDirOk := true, newCredOk := true,
      authenticateResult := some { username := "u", homeAccountID := "h" },
      mkdirOk := true, writeOk := true, readOk := true,
      removeOk := true, getTokenOk := true }
    (Auth.NewManager "cid")
    { clientID := "cid",
      credential := some { opts :=
        { clientID := "cid", tenantID := "common",
          authenticationRecord := none,
          disableAutomaticAuthentication := false } },
      record := some { username := "u", homeAccountID := "h" } }
    { authFile := none }
    { authFile := some { username := "u", homeAccountID := "h" } }
    (by decide) rfl
  simpa [Auth.NewManager] using h

/-- C2: the authentication state machine — `IsLoggedIn` is false whenever
the auth-record file is absent and true only if the record loads and a
silent token acquisition succeeds; `Logout` (when the config directory
resolves) succeeds when the file is already absent, errors only when
removal of an existing file fails, and on success clears the in-memory
credential and record, removes the file, and leaves `IsLoggedIn` false. -/
theorem auth_state_machine (env : Auth.Env) (m : Auth.Manager) (fs : Auth.FS) :
    (fs.authFile = none → Auth.Manager.IsLoggedIn env m fs = false) ∧
    (Auth.Manager.IsLoggedIn env m fs = true →
      (Auth.Manager.loadAuthRecord env fs).2 = none ∧ env.getTokenOk = true) ∧
    (env.homeDirOk = true →
      (fs.authFile = none → (Auth.Manager.Logout env m fs).2.2 = none) ∧
      ((Auth.Manager.Logout env m fs).2.2 = none →
        (Auth.Manager.Logout env m fs).1.credential = none ∧
        (Auth.Manager.Logout env m fs).1.record = none ∧
        (Auth.Manager.Logout env m fs).2.1.authFile = none ∧
        Auth.Manager.IsLoggedIn env (Auth.Manager.Logout env m fs).1
          (Auth.Manager.Logout env m fs).2.1 = false) ∧
      ((Auth.Manager.Logout env m fs).2.2 ≠ none →
        fs.authFile ≠ none ∧ env.removeOk = false)) := by
  refine ⟨?_, ?_, ?_⟩
  · intro habs
    cases hh : env.homeDirOk <;>
      simp [Auth.Manager.IsLoggedIn, Auth.Manager.LoadCredential,
        Auth.Manager.loadAuthRecord, habs, hh]
  · intro hlog
    cases hh : env.homeDirOk with
    | false =>
      simp [Auth.Manager.IsLoggedIn, Auth.Manager.LoadCredential,
        Auth.Manager.loadAuthRecord, hh] at hlog
    | true =>
      cases hfile : fs.authFile with
      | none =>
        simp [Auth.Manager.IsLoggedIn, Auth.Manager.LoadCredential,
          Auth.Manager.loadAuthRecord, hh, hfile] at hlog
      | some r =>
        cases hr : env.readOk with
        | false =>
          simp [Auth.Manager.IsLoggedIn, Auth.Manager.LoadCredential,
            Auth.Manager.loadAuthRecord, hh, hfile, hr] at hlog
        | true =>
          cases hnc : env.newCredOk with
          | false =>
            simp [Auth.Manager.IsLoggedIn, Auth.Manager.LoadCredential,
              Auth.Manager.loadAuthRecord, hh, hfile, hr, hnc] at hlog
          | true =>
            refine ⟨?_, ?_⟩
            · simp [Auth.Manager.loadAuthRecord, hh, hfile, hr]
            · simpa [Auth.Manager.IsLoggedIn, Auth.Manager.LoadCredential,
                Auth.Manager.loadAuthRecord, hh, hfile, hr, hnc] using hlog
  · intro hh
    cases hfile : fs.authFile with
    | none =>
      refine ⟨fun _ => ?_, fun _ => ?_, fun habs => ?_⟩
      · simp [Auth.Manager.Logout, hh, hfile]
      · refine ⟨?_, ?_, ?_, ?_⟩ <;>
          simp [Auth.Manager.Logout, Auth.Manager.IsLoggedIn,
            Auth.Manager.LoadCredential, Auth.Manager.loadAuthRecord, hh, hfile]
      · exact absurd (by simp [Auth.Manager.Logout, hh, hfile]) habs
    | some r =>
      cases hrm : env.removeOk with
      | false =>
        refine ⟨fun hc => ?_, fun hc => ?_, fun _ => ?_⟩
        · simp [hfile] at hc
        · simp [Auth.Manager.Logout, hh, hfile, hrm] at hc
        · simp [hfile]
      | true =>
        refine ⟨fun hc => ?_, fun _ => ?_, fun habs => ?_⟩
        · simp [hfile] at hc
        · refine ⟨?_, ?_, ?_, ?_⟩ <;>
            simp [Auth.Manager.Logout, Auth.Manager.IsLoggedIn,
              Auth.Manager.LoadCredential, Auth.Manager.loadAuthRecord,
              hh, hfile, hrm]
        · exact absurd (by simp [Auth.Manager.Logout, hh, hfile, hrm]) habs

/-- Witness for `auth_state_machine`: concrete environment and states on
both sides of the file-presence split. -/
theorem auth_state_machine_witness :
    (Auth.Manager.IsLoggedIn
      { homeDirOk := true, newCredOk := true, authenticateResult := none,
        mkdirOk := true, writeOk := true, readOk := true,
        removeOk := true, getTokenOk := true }
      (Auth.NewManager "cid") { authFile := none } = false) ∧
    ((Auth.Manager.Logout
      { homeDirOk := true, newCredOk := true, authenticateResult := none,
        mkdirOk := true, writeOk := true, readOk := true,
        removeOk := true, getTokenOk := true }
      (Auth.NewManager "cid") { authFile := none }).2.2 = none) :=
  ⟨(auth_state_machine _ _ _).1 rfl,
    ((auth_state_machine
      { homeDirOk := true, newCredOk := true, authenticateResult := none,
        mkdirOk := true, writeOk := true, readOk := true,
        removeOk := true, getTokenOk := true }
      (Auth.NewManager "cid") { authFile := none }).2.2 rfl).1 rfl⟩

/-- Hex digits decode to the value they encode. -/
theorem hexVal_hexDigit : ∀ n, n < 16 →
    ConfigPkg.hexVal (ConfigPkg.hexDigit n) = some n := by decide

/-- `Char.ofNat` inverts `Char.toNat`. -/
theorem char_ofNat_toNat (c : Char) : Char.ofNat c.toNat = c := by
  have hv : Nat.isValidChar c.toNat := c.valid
  unfold Char.ofNat
  rw [dif_pos hv]
  apply Char.eq_of_val_eq
  apply UInt32.eq_of_toBitVec_eq
  apply BitVec.eq_of_toNat_eq
  simp [Char.ofNatAux, Char.toNat, UInt32.toNat]

/-- The JSON string decoder inverts the Go JSON string encoder: decoding
the escaped form of `s` followed by a closing quote yields `s` and the
remaining input. -/
theorem parseStringBody_escape (s t : List Char) :
    ConfigPkg.parseStringBody (ConfigPkg.escapeList s ++ '"' :: t) = some (s, t) := by
  induction s with
  | nil =>
    show ConfigPkg.parseStringBody ('"' :: t) = _
    rw [ConfigPkg.parseStringBody.eq_def]
    simp
  | cons c cs ih =>
    show ConfigPkg.parseStringBody
      ((ConfigPkg.escapeChar c ++ ConfigPkg.escapeList cs) ++ '"' :: t) = _
    rw [List.append_assoc]
    by_cases h1 : c = '"'
    · subst h1
      show ConfigPkg.parseStringBody
        ('\\' :: '"' :: (ConfigPkg.escapeList cs ++ '"' :: t)) = _
      rw [ConfigPkg.parseStringBody.eq_def]
      simp [ih]
    by_cases h2 : c = '\\'
    · subst h2
      show ConfigPkg.parseStringBody
        ('\\' :: '\\' :: (ConfigPkg.escapeList cs ++ '"' :: t)) = _
      rw [ConfigPkg.parseStringBody.eq_def]
      simp [ih]
    by_cases h3 : c = '\n'
    · subst h3
      show ConfigPkg.parseStringBody
        ('\\' :: 'n' :: (ConfigPkg.escapeList cs ++ '"' :: t)) = _
      rw [ConfigPkg.parseStringBody.eq_def]
      simp [ih]
    by_cases h4 : c = '\r'
    · subst h4
      show ConfigPkg.parseStringBody
        ('\\' :: 'r' :: (ConfigPkg.escapeList cs ++ '"' :: t)) = _
      rw [ConfigPkg.parseStringBody.eq_def]
      simp [ih]
    by_cases h5 : c = '\t'
    · subst h5
      show ConfigPkg.parseStringBody
        ('\\' :: 't' :: (ConfigPkg.escapeList cs ++ '"' :: t)) = _
      rw [ConfigPkg.parseStringBody.eq_def]
      simp [ih]
    by_cases h6 : c.toNat < 0x20
    · have hhi := hexVal_hexDigit (c.toNat / 16) (by omega)
      have hlo := hexVal_hexDigit (c.toNat % 16) (by omega)
      simp only [ConfigPkg.escapeChar, if_neg h1, if_neg h2, if_neg h3, if_neg h4,
        if_neg h5, if_pos h6, List.cons_append, List.nil_append]
      have h0 : ConfigPkg.hexVal '0' = some 0 := by decide
      rw [ConfigPkg.parseStringBody.eq_def]
      simp [h0, hhi, hlo, ih]
      refine ⟨Or.inl (by omega), ?_⟩
      rw [show c.toNat / 16 * 16 + c.toNat % 16 = c.toNat from by omega,
        char_ofNat_toNat]
    by_cases h7 : c = '<'
    · subst h7
      show ConfigPkg.parseStringBody
        ('\\' :: 'u' :: '0' :: '0' :: '3' :: 'c' :: (ConfigPkg.escapeList cs ++ '"' :: t)) = _
      rw [ConfigPkg.parseStringBody.eq_def]
      simp [ConfigPkg.hexVal, ih]
    by_cases h8 : c = '>'
    · subst h8
      show ConfigPkg.parseStringBody
        ('\\' :: 'u' :: '0' :: '0' :: '3' :: 'e' :: (ConfigPkg.escapeList cs ++ '"' :: t)) = _
      rw [ConfigPkg.parseStringBody.eq_def]
      simp [ConfigPkg.hexVal, ih]
    by_cases h9 : c = '&'
    · subst h9
      show ConfigPkg.parseStringBody
        ('\\' :: 'u' :: '0' :: '0' :: '2' :: '6' :: (ConfigPkg.escapeList cs ++ '"' :: t)) = _
      rw [ConfigPkg.parseStringBody.eq_def]
      simp [ConfigPkg.hexVal, ih]
    by_cases h10 : c.toNat = 0x2028
    · have hofn : Char.ofNat 0x2028 = c := by rw [← h10, char_ofNat_toNat]
      simp only [ConfigPkg.escapeChar, if_neg h1, if_neg h2, if_neg h3, if_neg h4,
        if_neg h5, if_neg h6, if_neg h7, if_neg h8, if_neg h9, if_pos h10,
        List.cons_append, List.nil_append]
      rw [ConfigPkg.parseStringBody.eq_def]
      simp [ConfigPkg.hexVal, hofn, ih]
    by_cases h11 : c.toNat = 0x2029
    · have hofn : Char.ofNat 0x2029 = c := by rw [← h11, char_ofNat_toNat]
      simp only [ConfigPkg.escapeChar, if_neg h1, if_neg h2, if_neg h3, if_neg h4,
        if_neg h5, if_neg h6, if_neg h7, if_neg h8, if_neg h9, if_neg h10,
        if_pos h11, List.cons_append, List.nil_append]
      rw [ConfigPkg.parseStringBody.eq_def]
      simp [ConfigPkg.hexVal, hofn, ih]
    · simp only [ConfigPkg.escapeChar, if_neg h1, if_neg h2, if_neg h3, if_neg h4,
        if_neg h5, if_neg h6, if_neg h7, if_neg h8, if_neg h9, if_neg h10,
        if_neg h11, List.cons_append, List.nil_append]
      rw [ConfigPkg.parseStringBody.eq_def]
      simp [h1, h2, ih]

/-- Rebuilding a string from its character list is the identity. -/
theorem asString_data (s : String) : s.data.asString = s := rfl

/-- Decoding the literal `client_id` key. -/
theorem parseStringBody_client_id_key (T : List Char) :
    ConfigPkg.parseStringBody
      ('c' :: 'l' :: 'i' :: 'e' :: 'n' :: 't' :: '_' :: 'i' :: 'd' :: '"' :: T) =
      some ("client_id".data, T) :=
  parseStringBody_escape "client_id".data T

/-- `json.Unmarshal` inverts `json.MarshalIndent` on `Config` values. -/
theorem unmarshal_marshal (cfg : ConfigPkg.Config) :
    ConfigPkg.unmarshalConfig (ConfigPkg.marshalConfig cfg).asString = some cfg := by
  obtain ⟨cid⟩ := cfg
  by_cases h : cid = ""
  · subst h
    rfl
  · have hm : ConfigPkg.marshalConfig { ClientID := cid } =
        "\x7b\n  \"client_id\": \"".data ++ ConfigPkg.escapeList cid.data ++
          "\"\n\x7d".data := by
      simp [ConfigPkg.marshalConfig, h]
    rw [hm]
    have hdata : (("\x7b\n  \"client_id\": \"".data ++ ConfigPkg.escapeList cid.data ++
        "\"\n\x7d".data).asString).data =
        '{' :: '\n' :: ' ' :: ' ' :: '"' :: 'c' :: 'l' :: 'i' :: 'e' :: 'n' :: 't' ::
          '_' :: 'i' :: 'd' :: '"' :: ':' :: ' ' :: '"' ::
          (ConfigPkg.escapeList cid.data ++ '"' :: '\n' :: '}' :: []) := rfl
    have hval := parseStringBody_escape cid.data ('\n' :: '}' :: [])
    have hkey := parseStringBody_client_id_key
      (':' :: ' ' :: '"' :: (ConfigPkg.escapeList cid.data ++ '"' :: '\n' :: '}' :: []))
    unfold ConfigPkg.unmarshalConfig
    rw [hdata]
    simp +decide [ConfigPkg.skipWs, List.dropWhile_cons, ConfigPkg.isJsonWs]
    rw [ConfigPkg.parseMembers.eq_def]
    simp +decide [ConfigPkg.parseMember, hkey, hval, ConfigPkg.skipWs,
      List.dropWhile_cons, ConfigPkg.isJsonWs, asString_data]

/-- C6: `config.Load` returns the empty default config with nil error when
the file is absent, and `Load` after a successful `Save` returns exactly
the saved config (given the read succeeds). -/
theorem config_load_save_roundtrip (env : ConfigPkg.Env) (cfg : ConfigPkg.Config)
    (fs fs' : ConfigPkg.FS) :
    (env.homeDirOk = true →
      ConfigPkg.Load env { configFile := none } =
        (some { ClientID := "" }, none)) ∧
    (ConfigPkg.Save env cfg fs = (fs', none) → env.readOk = true →
      ConfigPkg.Load env fs' = (some cfg, none)) := by
  constructor
  · intro hh
    simp [ConfigPkg.Load, hh]
  · intro hsave hread
    cases hh : env.homeDirOk with
    | false => simp [ConfigPkg.Save, hh] at hsave
    | true =>
      cases hmk : env.mkdirOk with
      | false => simp [ConfigPkg.Save, hh, hmk] at hsave
      | true =>
        cases hw : env.writeOk with
        | false => simp [ConfigPkg.Save, hh, hmk, hw] at hsave
        | true =>
          simp only [ConfigPkg.Save, hh, hmk, hw, Bool.not_true,
            Bool.false_eq_true, if_false, Prod.mk.injEq] at hsave
          rw [← hsave.1]
          simp [ConfigPkg.Load, hh, hread, unmarshal_marshal]

/-- Witness for `config_load_save_roundtrip` at a concrete config with an
escaping-relevant client ID. -/
theorem config_load_save_roundtrip_witness :
    ConfigPkg.Load
      { homeDirOk := true, mkdirOk := true, writeOk := true, readOk := true }
      { configFile := none } = (some { ClientID := "" }, none) ∧
    ConfigPkg.Load
      { homeDirOk := true, mkdirOk := true, writeOk := true, readOk := true }
      (ConfigPkg.Save
        { homeDirOk := true, mkdirOk := true, writeOk := true, readOk := true }
        { ClientID := "a\"b<c>" } { configFile := none }).1 =
      (some { ClientID := "a\"b<c>" }, none) := by
  constructor
  · exact (config_load_save_roundtrip
      { homeDirOk := true, mkdirOk := true, writeOk := true, readOk := true }
      { ClientID := "" } { configFile := none } { configFile := none }).1 rfl
  · exact (config_load_save_roundtrip
      { homeDirOk := true, mkdirOk := true, writeOk := true, readOk := true }
      { ClientID := "a\"b<c>" } { configFile := none }
      (ConfigPkg.Save
        { homeDirOk := true, mkdirOk := true, writeOk := true, readOk := true }
        { ClientID := "a\"b<c>" } { configFile := none }).1).2 rfl rfl

/-- Evaluation of `convertMessage`, field by field. -/
theorem convertMessage_eq (msg : Mail.GraphMessage) :
    Mail.convertMessage msg =
      { ID := Mail.safeString msg.id
        Subject := Mail.safeString msg.subject
        IsRead := Mail.safeBool msg.isRead
        HasAttachments := Mail.safeBool msg.hasAttachments
        BodyPreview := Mail.safeString msg.bodyPreview
        From :=
          match msg.«from» with
          | none => ""
          | some f =>
            match f.emailAddress with
            | none => ""
            | some addr =>
              if Mail.safeString addr.name ≠ "" ∧
                  Mail.safeString addr.name ≠ Mail.safeString addr.address then
                Mail.safeString addr.name ++ " <" ++ Mail.safeString addr.address ++ ">"
              else Mail.safeString addr.address
        To :=
          match msg.toRecipients with
          | none => []
          | some rs => rs.foldl (fun acc r =>
              match r.emailAddress with
              | none => acc
              | some addr => acc ++ [Mail.safeString addr.address]) []
        ReceivedAt :=
          match msg.receivedDateTime with
          | none => Mail.GoTime.zero
          | some t => t } := by
  obtain ⟨mid, msub, mir, mha, mbp, mfrom, mto, mrdt⟩ := msg
  rcases mfrom with _ | ⟨_ | ⟨nm, ad⟩⟩ <;> rcases mto with _ | ts <;>
    rcases mrdt with _ | t <;>
    (dsimp only [Mail.convertMessage]
     all_goals first | rfl | (split_ifs <;> rfl))

/-- Evaluation of `convertFolder`, field by field. -/
theorem convertFolder_eq (f : Mail.GraphMailFolder) :
    Mail.convertFolder f =
      { ID := Mail.safeString f.id
        DisplayName := Mail.safeString f.displayName
        TotalItemCount := match f.totalItemCount with | none => 0 | some c => c
        UnreadItemCount := match f.unreadItemCount with | none => 0 | some c => c
        ParentFolderID := match f.parentFolderId with | none => "" | some p => p } := by
  obtain ⟨fid, fdn, ftc, fuc, fpid⟩ := f
  rcases ftc with _ | c1 <;> rcases fuc with _ | c2 <;> rcases fpid with _ | p <;> rfl

/-- Evaluation of `convertEvent`, field by field. -/
theorem convertEvent_eq (parse : String → String → Mail.GoTime)
    (ev : Calendar.GraphEvent) :
    Calendar.convertEvent parse ev =
      { ID := Mail.safeString ev.id
        Subject := Mail.safeString ev.subject
        WebLink := Mail.safeString ev.webLink
        IsAllDay := Mail.safeBool ev.isAllDay
        IsOnline := Mail.safeBool ev.isOnlineMeeting
        OnlineMeetingURL :=
          match ev.onlineMeetingUrl with | none => "" | some url => url
        Start :=
          match ev.start with
          | none => Mail.GoTime.zero
          | some s =>
            match s.dateTime with
            | none => Mail.GoTime.zero
            | some dt => parse dt (match s.timeZone with | none => "UTC" | some z => z)
        End :=
          match ev.«end» with
          | none => Mail.GoTime.zero
          | some e =>
            match e.dateTime with
            | none => Mail.GoTime.zero
            | some dt => parse dt (match e.timeZone with | none => "UTC" | some z => z)
        Location :=
          match ev.location with
          | none => ""
          | some loc => Mail.safeString loc.displayName
        Organizer :=
          match ev.organizer with
          | none => ""
          | some org =>
            match org.emailAddress with
            | none => ""
            | some email => Mail.safeString email.address
        Attendees :=
          match ev.attendees with
          | none => []
          | some l => l.foldl (fun acc a =>
              match a.emailAddress with
              | none => acc
              | some email => acc ++ [Mail.safeString email.address]) []
        ResponseStatus :=
          match ev.responseStatus with
          | none => ""
          | some resp =>
            match resp.response with
            | none => ""
            | some r => r } := by
  obtain ⟨eid, esub, ewl, eall, eonl, eurl, est, eend, eloc, eorg, eatt, ers⟩ := ev
  rcases eurl with _ | u <;>
    rcases est with _ | ⟨_ | d1, tz1⟩ <;>
    rcases eend with _ | ⟨_ | d2, tz2⟩ <;>
    rcases eloc with _ | ⟨ld⟩ <;>
    rcases eorg with _ | ⟨_ | oa⟩ <;>
    rcases eatt with _ | al <;>
    rcases ers with _ | ⟨_ | rv⟩ <;>
    rfl

/-- C5: the conversions from remote API objects are total on inputs with
arbitrarily missing (`nil`) fields — every absent string field maps to
`""`, every absent boolean to `false`, and every absent timestamp to the
zero time. -/
theorem conversions_nil_fields (msg : Mail.GraphMessage)
    (f : Mail.GraphMailFolder) (parse : String → String → Mail.GoTime)
    (ev : Calendar.GraphEvent) :
    ((msg.id = none → (Mail.convertMessage msg).ID = "") ∧
     (msg.subject = none → (Mail.convertMessage msg).Subject = "") ∧
     (msg.bodyPreview = none → (Mail.convertMessage msg).BodyPreview = "") ∧
     (msg.isRead = none → (Mail.convertMessage msg).IsRead = false) ∧
     (msg.hasAttachments = none → (Mail.convertMessage msg).HasAttachments = false) ∧
     (msg.«from» = none → (Mail.convertMessage msg).From = "") ∧
     (msg.toRecipients = none → (Mail.convertMessage msg).To = []) ∧
     (msg.receivedDateTime = none →
       (Mail.convertMessage msg).ReceivedAt = Mail.GoTime.zero)) ∧
    ((f.id = none → (Mail.convertFolder f).ID = "") ∧
     (f.displayName = none → (Mail.convertFolder f).DisplayName = "") ∧
     (f.totalItemCount = none → (Mail.convertFolder f).TotalItemCount = 0) ∧
     (f.unreadItemCount = none → (Mail.convertFolder f).UnreadItemCount = 0) ∧
     (f.parentFolderId = none → (Mail.convertFolder f).ParentFolderID = "")) ∧
    ((ev.id = none → (Calendar.convertEvent parse ev).ID = "") ∧
     (ev.subject = none → (Calendar.convertEvent parse ev).Subject = "") ∧
     (ev.webLink = none → (Calendar.convertEvent parse ev).WebLink = "") ∧
     (ev.isAllDay = none → (Calendar.convertEvent parse ev).IsAllDay = false) ∧
     (ev.isOnlineMeeting = none → (Calendar.convertEvent parse ev).IsOnline = false) ∧
     (ev.onlineMeetingUrl = none →
       (Calendar.convertEvent parse ev).OnlineMeetingURL = "") ∧
     (ev.start = none → (Calendar.convertEvent parse ev).Start = Mail.GoTime.zero) ∧
     (ev.«end» = none → (Calendar.convertEvent parse ev).End = Mail.GoTime.zero) ∧
     (ev.location = none → (Calendar.convertEvent parse ev).Location = "") ∧
     (ev.organizer = none → (Calendar.convertEvent parse ev).Organizer = "") ∧
     (ev.attendees = none → (Calendar.convertEvent parse ev).Attendees = []) ∧
     (ev.responseStatus = none →
       (Calendar.convertEvent parse ev).ResponseStatus = "")) := by
  rw [convertMessage_eq, convertFolder_eq, convertEvent_eq]
  refine ⟨⟨?_, ?_, ?_, ?_, ?_, ?_, ?_, ?_⟩, ⟨?_, ?_, ?_, ?_, ?_⟩,
    ⟨?_, ?_, ?_, ?_, ?_, ?_, ?_, ?_, ?_, ?_, ?_, ?_⟩⟩ <;>
    intro h <;> simp [h, Mail.safeString, Mail.safeBool]

/-- Witness for `conversions_nil_fields` at all-nil inputs. -/
theorem conversions_nil_fields_witness :
    (Mail.convertMessage
      { id := none, subject := none, isRead := none, hasAttachments := none,
        bodyPreview := none, «from» := none, toRecipients := none,
        receivedDateTime := none }).ID = "" ∧
    (Mail.convertFolder
      { id := none, displayName := none, totalItemCount := none,
        unreadItemCount := none, parentFolderId := none }).TotalItemCount = 0 ∧
    (Calendar.convertEvent (fun _ _ => Mail.GoTime.zero)
      { id := none, subject := none, webLink := none, isAllDay := none,
        isOnlineMeeting := none, onlineMeetingUrl := none, start := none,
        «end» := none, location := none, organizer := none, attendees := none,
        responseStatus := none }).Start = Mail.GoTime.zero :=
  ⟨(conversions_nil_fields
      { id := none, subject := none, isRead := none, hasAttachments := none,
        bodyPreview := none, «from» := none, toRecipients := none,
        receivedDateTime := none }
      { id := none, displayName := none, totalItemCount := none,
        unreadItemCount := none, parentFolderId := none }
      (fun _ _ => Mail.GoTime.zero)
      { id := none, subject := none, webLink := none, isAllDay := none,
        isOnlineMeeting := none, onlineMeetingUrl := none, start := none,
        «end» := none, location := none, organizer := none, attendees := none,
        responseStatus := none }).1.1 rfl,
    (conversions_nil_fields
      { id := none, subject := none, isRead := none, hasAttachments := none,
        bodyPreview := none, «from» := none, toRecipients := none,
        receivedDateTime := none }
      { id := none, displayName := none, totalItemCount := none,
        unreadItemCount := none, parentFolderId := none }
      (fun _ _ => Mail.GoTime.zero)
      { id := none, subject := none, webLink := none, isAllDay := none,
        isOnlineMeeting := none, onlineMeetingUrl := none, start := none,
        «end» := none, location := none, organizer := none, attendees := none,
        responseStatus := none }).2.1.2.2.1 rfl,
    (conversions_nil_fields
      { id := none, subject := none, isRead := none, hasAttachments := none,
        bodyPreview := none, «from» := none, toRecipients := none,
        receivedDateTime := none }
      { id := none, displayName := none, totalItemCount := none,
        unreadItemCount := none, parentFolderId := none }
      (fun _ _ => Mail.GoTime.zero)
      { id := none, subject := none, webLink := none, isAllDay := none,
        isOnlineMeeting := none, onlineMeetingUrl := none, start := none,
        «end» := none, location := none, organizer := none, attendees := none,
        responseStatus := none }).2.2.2.2.2.2.2.2.1 rfl⟩

/-- C10: with a non-empty `FolderID`, `ListMessages` issues the folder
request with a nil configuration, so none of the other options affect the
request; with an empty `FolderID`, `Top = 0` defaults to 25, an empty
`OrderBy` defaults to `receivedDateTime desc`, and `UnreadOnly` conjoins
`isRead eq false` onto any existing filter. -/
theorem listMessagesRequest_options (opts : Mail.ListOptions) :
    (opts.FolderID ≠ "" →
      Mail.listMessagesRequest opts = .folder opts.FolderID none ∧
      ∀ opts2 : Mail.ListOptions, opts2.FolderID = opts.FolderID →
        Mail.listMessagesRequest opts2 = Mail.listMessagesRequest opts) ∧
    (opts.FolderID = "" →
      Mail.listMessagesRequest opts = .mailbox
        { top := if opts.Top = 0 then 25 else opts.Top
          orderby := [if opts.OrderBy = "" then "receivedDateTime desc" else opts.OrderBy]
          filter :=
            if opts.UnreadOnly then
              some (if opts.Filter ≠ "" then
                      "(" ++ opts.Filter ++ ") and isRead eq false"
                    else "isRead eq false")
            else if opts.Filter ≠ "" then some opts.Filter else none
          skip := if opts.Skip > 0 then some opts.Skip else none }) := by
  constructor
  · intro h
    refine ⟨by simp [Mail.listMessagesRequest, h], fun opts2 h2 => ?_⟩
    have h2' : opts2.FolderID ≠ "" := h2 ▸ h
    simp [Mail.listMessagesRequest, h, h2, h2']
  · intro h
    simp only [Mail.listMessagesRequest, h]
    have hne : "(" ++ opts.Filter ++ ") and isRead eq false" ≠ "" := by
      intro heq
      have := congrArg String.length heq
      simp [String.length_append] at this
      exact absurd this.1.1 (by decide)
    by_cases hu : opts.UnreadOnly <;> by_cases hf : opts.Filter = "" <;>
      simp [hu, hf, hne]

/-- Witness for `listMessagesRequest_options`: the folder branch at a
concrete option record, showing the other options are dropped. -/
theorem listMessagesRequest_options_witness :
    Mail.listMessagesRequest
        { Top := 7, Skip := 3, Filter := "x", OrderBy := "y",
          UnreadOnly := true, FolderID := "fid" } = .folder "fid" none ∧
    Mail.listMessagesRequest
        { Top := 0, Skip := 0, Filter := "f", OrderBy := "",
          UnreadOnly := true, FolderID := "" } = .mailbox
      { top := 25, orderby := ["receivedDateTime desc"],
        filter := some "(f) and isRead eq false", skip := none } :=
  ⟨((listMessagesRequest_options _).1 (by decide)).1, by
    have := (listMessagesRequest_options
      { Top := 0, Skip := 0, Filter := "f", OrderBy := "",
        UnreadOnly := true, FolderID := "" }).2 rfl
    simpa using this⟩

/-- The head of a `dropWhile` result does not satisfy the predicate. -/
theorem dropWhile_head_false {α : Type} (p : α → Bool) (l : List α) (c : α)
    (r : List α) (h : l.dropWhile p = c :: r) : p c = false := by
  induction l with
  | nil => simp [List.dropWhile] at h
  | cons a t ih =>
    rw [List.dropWhile_cons] at h
    by_cases hp : p a
    · rw [if_pos hp] at h; exact ih h
    · rw [if_neg hp] at h
      injection h with h1 _
      subst h1
      simpa using hp

/-- `trimSpaceL l` followed by the trimmed-off suffix is the
leading-trimmed list. -/
theorem trimSpaceL_decomp (l : List Char) :
    Mail.trimSpaceL l ++
      ((l.dropWhile Mail.goIsSpace).reverse.takeWhile Mail.goIsSpace).reverse =
      l.dropWhile Mail.goIsSpace := by
  unfold Mail.trimSpaceL
  rw [← List.reverse_append, List.takeWhile_append_dropWhile, List.reverse_reverse]

/-- A nonempty trimmed list starts with a non-space character. -/
theorem trimSpaceL_head_false (l : List Char) (c : Char) (r : List Char)
    (h : Mail.trimSpaceL l = c :: r) : Mail.goIsSpace c = false := by
  have hd := trimSpaceL_decomp l
  rw [h] at hd
  exact dropWhile_head_false Mail.goIsSpace l c _ hd.symm

/-- A nonempty trimmed list ends with a non-space character. -/
theorem trimSpaceL_getLast_false (l : List Char) (c : Char)
    (h : (Mail.trimSpaceL l).getLast? = some c) : Mail.goIsSpace c = false := by
  unfold Mail.trimSpaceL at h
  rw [List.getLast?_reverse] at h
  cases hx : (l.dropWhile Mail.goIsSpace).reverse.dropWhile Mail.goIsSpace with
  | nil => rw [hx] at h; simp at h
  | cons a t =>
    rw [hx] at h
    simp only [List.head?_cons, Option.some.injEq] at h
    subst h
    exact dropWhile_head_false Mail.goIsSpace _ a t hx

/-- Trimming only removes characters. -/
theorem mem_of_mem_trimSpaceL (l : List Char) (x : Char)
    (hx : x ∈ Mail.trimSpaceL l) : x ∈ l := by
  have h1 : x ∈ l.dropWhile Mail.goIsSpace := by
    rw [← trimSpaceL_decomp l]
    exact List.mem_append_left _ hx
  rw [← List.takeWhile_append_dropWhile Mail.goIsSpace l]
  exact List.mem_append_right _ h1

/-- `splitNL` always returns at least one piece. -/
theorem splitNL_ne_nil (l : List Char) : Mail.splitNL l ≠ [] := by
  cases l with
  | nil => simp [Mail.splitNL]
  | cons c r =>
    by_cases hc : c = '\n' <;> simp [Mail.splitNL, hc]

/-- No piece of `splitNL` contains a newline. -/
theorem splitNL_no_newline (l : List Char) :
    ∀ x ∈ Mail.splitNL l, '\n' ∉ x := by
  induction l with
  | nil =>
    intro x hx
    simp [Mail.splitNL] at hx
    simp [hx]
  | cons c r ih =>
    intro x hx
    by_cases hc : c = '\n'
    · subst hc
      rw [show Mail.splitNL ('\n' :: r) = [] :: Mail.splitNL r from by
        simp [Mail.splitNL]] at hx
      rcases List.mem_cons.mp hx with rfl | hx
      · simp
      · exact ih x hx
    · rw [show Mail.splitNL (c :: r) =
          (c :: (Mail.splitNL r).headD []) :: (Mail.splitNL r).tail from by
        simp [Mail.splitNL, hc]] at hx
      rcases List.mem_cons.mp hx with rfl | hx
      · intro hmem
        rcases List.mem_cons.mp hmem with he | he
        · exact hc he.symm
        · cases hsp : Mail.splitNL r with
          | nil => exact splitNL_ne_nil r hsp
          | cons h0 t0 =>
            rw [hsp] at he
            exact ih h0 (by rw [hsp]; exact List.mem_cons_self h0 t0) he
      · exact ih x (List.mem_of_mem_tail hx)

/-- A newline-free list splits into the single piece it is. -/
theorem splitNL_no_newline_eq (l : List Char) (h : '\n' ∉ l) :
    Mail.splitNL l = [l] := by
  induction l with
  | nil => rfl
  | cons c r ih =>
    have hc : ¬c = '\n' := fun e => h (by simp [e])
    have hr : '\n' ∉ r := fun e => h (List.mem_cons_of_mem _ e)
    simp [Mail.splitNL, hc, ih hr]

/-- Splitting after appending a newline separates the first piece. -/
theorem splitNL_append_newline (x rest : List Char) (h : '\n' ∉ x) :
    Mail.splitNL (x ++ '\n' :: rest) = x :: Mail.splitNL rest := by
  induction x with
  | nil => simp [Mail.splitNL]
  | cons c t ih =>
    have hc : ¬c = '\n' := fun e => h (by simp [e])
    have ht : '\n' ∉ t := fun e => h (List.mem_cons_of_mem _ e)
    simp [Mail.splitNL, hc, ih ht]

/-- `splitNL` inverts `joinNL` on nonempty lists of newline-free pieces. -/
theorem splitNL_joinNL : ∀ pieces : List (List Char), pieces ≠ [] →
    (∀ x ∈ pieces, '\n' ∉ x) →
    Mail.splitNL (Mail.joinNL pieces) = pieces := by
  intro pieces
  induction pieces with
  | nil => intro h; exact absurd rfl h
  | cons x rest ih =>
    intro _ hnl
    cases rest with
    | nil =>
      rw [show Mail.joinNL [x] = x from rfl]
      exact splitNL_no_newline_eq x (hnl x (by simp))
    | cons y t =>
      rw [show Mail.joinNL (x :: y :: t) = x ++ '\n' :: Mail.joinNL (y :: t) from rfl]
      rw [splitNL_append_newline x _ (hnl x (by simp))]
      rw [ih (by simp) (fun z hz => hnl z (List.mem_cons_of_mem _ hz))]

/-- `joinNL` of a list whose first piece is nonempty is nonempty. -/
theorem joinNL_ne_nil (x : List Char) (rest : List (List Char)) (hx : x ≠ []) :
    Mail.joinNL (x :: rest) ≠ [] := by
  cases rest with
  | nil => exact hx
  | cons y t =>
    rw [show Mail.joinNL (x :: y :: t) = x ++ '\n' :: Mail.joinNL (y :: t) from rfl]
    simp

/-- The head of `joinNL` is the head of the first piece. -/
theorem joinNL_head (x : List Char) (rest : List (List Char)) (c : Char)
    (r : List Char) (hx : x = c :: r) :
    (Mail.joinNL (x :: rest)).head? = some c := by
  cases rest with
  | nil => rw [show Mail.joinNL [x] = x from rfl, hx]; rfl
  | cons y t =>
    rw [show Mail.joinNL (x :: y :: t) = x ++ '\n' :: Mail.joinNL (y :: t) from rfl,
      hx]
    rfl

/-- The last character of `joinNL` is the last character of one of the
pieces (the last one), provided all pieces are nonempty. -/
theorem joinNL_getLast_mem : ∀ pieces : List (List Char), pieces ≠ [] →
    (∀ x ∈ pieces, x ≠ []) →
    ∃ y ∈ pieces, (Mail.joinNL pieces).getLast? = y.getLast? := by
  intro pieces
  induction pieces with
  | nil => intro h; exact absurd rfl h
  | cons x rest ih =>
    intro _ hne
    cases rest with
    | nil => exact ⟨x, by simp, by rw [show Mail.joinNL [x] = x from rfl]⟩
    | cons y t =>
      obtain ⟨z, hz, heq⟩ := ih (by simp)
        (fun a ha => hne a (List.mem_cons_of_mem _ ha))
      refine ⟨z, List.mem_cons_of_mem _ hz, ?_⟩
      have hJ : Mail.joinNL (y :: t) ≠ [] := joinNL_ne_nil y t (hne y (by simp))
      obtain ⟨a, ha⟩ : ∃ a, (Mail.joinNL (y :: t)).getLast? = some a := by
        cases hJl : (Mail.joinNL (y :: t)).getLast? with
        | none => exact absurd (List.getLast?_eq_none_iff.mp hJl) hJ
        | some a => exact ⟨a, rfl⟩
      rw [show Mail.joinNL (x :: y :: t) = x ++ '\n' :: Mail.joinNL (y :: t) from rfl]
      rw [show ('\n' :: Mail.joinNL (y :: t) : List Char) =
        ['\n'] ++ Mail.joinNL (y :: t) from rfl]
      rw [List.getLast?_append, List.getLast?_append, ha]
      rw [ha] at heq
      rw [← heq]
      simp

/-- Joining nonempty, newline-free, space-trimmed pieces yields output
that splits back into those pieces and neither starts nor ends with
whitespace. -/
theorem joinNL_cleaned_props (cleaned : List (List Char))
    (h1 : ∀ q ∈ cleaned, q ≠ [])
    (h2 : ∀ q ∈ cleaned, '\n' ∉ q)
    (h3 : ∀ q ∈ cleaned,
      (∀ c r, q = c :: r → Mail.goIsSpace c = false) ∧
      (∀ c, q.getLast? = some c → Mail.goIsSpace c = false)) :
    Mail.joinNL cleaned = [] ∨
    (Mail.splitNL (Mail.joinNL cleaned) = cleaned ∧
     (∀ c, (Mail.joinNL cleaned).head? = some c → Mail.goIsSpace c = false) ∧
     (∀ c, (Mail.joinNL cleaned).getLast? = some c → Mail.goIsSpace c = false)) := by
  cases cleaned with
  | nil => exact Or.inl rfl
  | cons x rest =>
    right
    refine ⟨splitNL_joinNL _ (by simp) h2, ?_, ?_⟩
    · intro c hc
      cases hx : x with
      | nil => exact absurd hx (h1 x (by simp))
      | cons a r =>
        rw [joinNL_head x rest a r hx] at hc
        injection hc with hac
        subst hac
        exact (h3 x (by simp)).1 a r hx
    · intro c hc
      obtain ⟨y, hy, heq⟩ := joinNL_getLast_mem (x :: rest) (by simp) h1
      rw [heq] at hc
      exact (h3 y hy).2 c hc

/-- The final cleanup stage of `StripHTML` (split on newlines, trim each
line, drop empty lines, join) yields empty output or output whose lines
are the nonempty trimmed lines. -/
theorem cleanup_stage (t : List Char) :
    Mail.joinNL (((Mail.splitNL t).map Mail.trimSpaceL).filter
      (fun q => q ≠ [])) = [] ∨
    (Mail.splitNL (Mail.joinNL (((Mail.splitNL t).map Mail.trimSpaceL).filter
        (fun q => q ≠ []))) =
      ((Mail.splitNL t).map Mail.trimSpaceL).filter (fun q => q ≠ []) ∧
     (∀ c, (Mail.joinNL (((Mail.splitNL t).map Mail.trimSpaceL).filter
        (fun q => q ≠ []))).head? = some c → Mail.goIsSpace c = false) ∧
     (∀ c, (Mail.joinNL (((Mail.splitNL t).map Mail.trimSpaceL).filter
        (fun q => q ≠ []))).getLast? = some c → Mail.goIsSpace c = false)) := by
  apply joinNL_cleaned_props
  · intro q hq
    have := (List.mem_filter.mp hq).2
    simpa using this
  · intro q hq hn
    obtain ⟨orig, horig, rfl⟩ := List.mem_map.mp (List.mem_filter.mp hq).1
    exact splitNL_no_newline t orig horig (mem_of_mem_trimSpaceL orig '\n' hn)
  · intro q hq
    obtain ⟨orig, horig, rfl⟩ := List.mem_map.mp (List.mem_filter.mp hq).1
    exact ⟨fun c r hcr => trimSpaceL_head_false orig c r hcr,
      fun c hcl => trimSpaceL_getLast_false orig c hcl⟩

/-- C7: `StripHTML` output is either empty or: it does not start or end
with (Go) whitespace, it contains no blank line, and every line equals a
trimmed line of the intermediate text (in particular no line starts or
ends with whitespace). -/
theorem stripHTML_trimmed_output (s : String) :
    Mail.StripHTML s = "" ∨
    ((∀ c, (Mail.StripHTML s).data.head? = some c → Mail.goIsSpace c = false) ∧
     (∀ c, (Mail.StripHTML s).data.getLast? = some c → Mail.goIsSpace c = false) ∧
     (∀ q ∈ Mail.splitNL (Mail.StripHTML s).data, q ≠ [] ∧
       (∀ c r, q = c :: r → Mail.goIsSpace c = false) ∧
       (∀ c, q.getLast? = some c → Mail.goIsSpace c = false))) := by
  obtain ⟨t, ht⟩ : ∃ t, Mail.stripHTMLCore s.data =
      Mail.joinNL (((Mail.splitNL t).map Mail.trimSpaceL).filter
        (fun q => q ≠ [])) := ⟨_, rfl⟩
  have hdata : (Mail.StripHTML s).data = Mail.stripHTMLCore s.data := rfl
  rcases cleanup_stage t with h | ⟨hsplit, hh, hl⟩
  · left
    have : Mail.stripHTMLCore s.data = [] := by rw [ht, h]
    show (Mail.stripHTMLCore s.data).asString = ""
    rw [this]
    rfl
  · right
    rw [hdata, ht]
    refine ⟨hh, hl, ?_⟩
    intro q hq
    rw [hsplit] at hq
    refine ⟨?_, ?_⟩
    · have := (List.mem_filter.mp hq).2
      simpa using this
    · obtain ⟨orig, horig, rfl⟩ := List.mem_map.mp (List.mem_filter.mp hq).1
      exact ⟨fun c r hcr => trimSpaceL_head_false orig c r hcr,
        fun c hcl => trimSpaceL_getLast_false orig c hcl⟩
